import Mathlib

/-!
Verification development for the task queue and scheduling engine of the
`bdevz/ardan` repository (the "Upwork Automation System").

The repository ships the engine's documentation (`part_011`, the design
document `part_000`, the administration guide `part_017`) and its web-dashboard
callers (`useWebSocket`, `useJobQueue`, `useSystemStatus`, `Dashboard.tsx`),
while the engine implementation itself (`services/task_queue_service.py`,
`workers/`, `services/task_scheduler.py`, `services/queue_metrics_service.py`)
is not among the provided sources.  The Task Store / Dispatcher / Worker Pool /
Metrics model below is therefore modelled from the specification (§3, §4.1,
§4.3, §4.4, §4.6); the dashboard WebSocket hook is embedded directly from its
TypeScript source (`useWebSocket.ts`, shipped as `part_004`).
-/

namespace TaskQueue

/-- Modelled from the spec (§3): task priority enum High/Normal/Low. -/
inductive Priority
  | low
  | normal
  | high
deriving DecidableEq, Repr

/-- Numeric rank of a priority; higher rank is dispatched first. -/
def Priority.rank : Priority → Nat
  | .low => 0
  | .normal => 1
  | .high => 2

/-- Modelled from the spec (§3): the task status state machine
Pending/Scheduled → Claimed → Processing → Completed | DeadLettered |
Cancelled. -/
inductive Status
  | pending
  | scheduled
  | claimed
  | processing
  | completed
  | deadLettered
  | cancelled
deriving DecidableEq, Repr

/-- Terminal statuses persist for audit and are never claimed again (§3). -/
def Status.isTerminal : Status → Bool
  | .completed => true
  | .deadLettered => true
  | .cancelled => true
  | _ => false

/-- Modelled from the spec (§3): the Task record.  `payload` and `result` are
opaque blobs, represented as strings; timestamps are naturals; worker ids are
naturals.  `completions` is a ghost counter of successful `CompleteTask`
applications, used to state the zero-duplicate-completions property. -/
structure Task where
  id : Nat
  taskType : String
  payload : String
  priority : Priority
  status : Status
  attemptCount : Nat
  maxAttempts : Nat
  nextAttemptAt : Option Nat
  scheduledFor : Option Nat
  claimedBy : Option Nat
  claimedAt : Option Nat
  createdAt : Nat
  result : Option String
  lastError : Option String
  idempotencyKey : Option String
  completions : Nat
deriving DecidableEq, Repr

/-- Modelled from the spec (§4.1, §4.4): engine configuration — the set of
registered task types, the payload size limit used by enqueue validation, and
the retry backoff parameters (`part_011` documents base 2 minutes, delays
2, 4, 8 minutes). -/
structure Config where
  registered : List String
  maxPayloadSize : Nat
  baseDelay : Nat
  maxDelay : Nat
deriving DecidableEq, Repr

/-- Modelled from the spec (§3): a ScheduledJobDefinition — a recurring rule
producing new tasks on a cron-like cadence. -/
structure ScheduledJob where
  id : Nat
  name : String
  cronExpression : String
  taskType : String
  defaultPayload : String
  enabled : Bool
  lastRunAt : Option Nat
  nextRunAt : Option Nat
deriving DecidableEq, Repr

/-- Modelled from the spec (§2, §3): the Task Store, sole source of truth for
task state and scheduled-job definitions.  `nextId` generates fresh task
ids. -/
structure Store where
  cfg : Config
  tasks : List Task
  schedules : List ScheduledJob
  nextId : Nat
deriving DecidableEq, Repr

/-- Modelled from the spec (§7): the error taxonomy visible to store callers. -/
inductive QueueError
  | validationError
  | invalidStateError
deriving DecidableEq, Repr

/-- Modelled from the spec (§4.4): deterministic part of the retry backoff,
`min(maxDelay, baseDelay * 2^(attempt-1))` (jitter is modelled separately
over ℚ below). -/
def backoff (cfg : Config) (attempt : Nat) : Nat :=
  min cfg.maxDelay (cfg.baseDelay * 2 ^ (attempt - 1))

/-- Look a task up by id (first record with that id). -/
def getTask (s : Store) (id : Nat) : Option Task :=
  s.tasks.find? (fun t => t.id == id)

/-- Apply `f` to the record(s) with the given id, leaving all others alone. -/
def updateTask (id : Nat) (f : Task → Task) (l : List Task) : List Task :=
  l.map (fun t => if t.id = id then f t else t)

/-- Modelled from the spec (§3, §4.3): the non-terminal task holding an
idempotency key, if any (`idempotency_key` is unique among non-terminal
tasks). -/
def findNonTerminalByKey (l : List Task) (k : String) : Option Task :=
  l.find? (fun t => t.idempotencyKey == some k && !t.status.isTerminal)

/-- Modelled from the spec (§3, §4.1): the fresh task record written by
`CreateTask`: status Scheduled when `scheduledFor` is given, else Pending;
`attempt_count = 0`.  `maxAttempts` is clamped to at least 1 so that every
task is allowed one attempt (the spec's default is 3 and §3 requires
`attempt_count ≤ max_attempts` at all times). -/
def newTask (id : Nat) (taskType payload : String) (prio : Priority)
    (maxAttempts : Nat) (scheduledFor : Option Nat) (idempotencyKey : Option String)
    (now : Nat) : Task :=
  { id := id
    taskType := taskType
    payload := payload
    priority := prio
    status := if scheduledFor.isSome then .scheduled else .pending
    attemptCount := 0
    maxAttempts := max 1 maxAttempts
    nextAttemptAt := none
    scheduledFor := scheduledFor
    claimedBy := none
    claimedAt := none
    createdAt := now
    result := none
    lastError := none
    idempotencyKey := idempotencyKey
    completions := 0 }

/-- Modelled from the spec (§4.1, §4.3):
`CreateTask(type, payload, priority, maxAttempts, scheduledFor?, idempotencyKey?)`.
Fails with ValidationError on unknown type or oversized payload, persisting
nothing; returns the existing id when the idempotency key matches a
non-terminal task; otherwise durably records a fresh task. -/
def createTask (s : Store) (taskType payload : String) (prio : Priority)
    (maxAttempts : Nat) (scheduledFor : Option Nat) (idempotencyKey : Option String)
    (now : Nat) : Except QueueError Nat × Store :=
  if taskType ∉ s.cfg.registered then
    (.error .validationError, s)
  else if payload.length > s.cfg.maxPayloadSize then
    (.error .validationError, s)
  else
    match idempotencyKey with
    | some k =>
      match findNonTerminalByKey s.tasks k with
      | some t => (.ok t.id, s)
      | none =>
        (.ok s.nextId,
          { s with
              tasks := newTask s.nextId taskType payload prio maxAttempts
                  scheduledFor idempotencyKey now :: s.tasks
              nextId := s.nextId + 1 })
    | none =>
      (.ok s.nextId,
        { s with
            tasks := newTask s.nextId taskType payload prio maxAttempts
                scheduledFor idempotencyKey now :: s.tasks
            nextId := s.nextId + 1 })

/-- Modelled from the spec (§4.1): a task's readiness time —
`next_attempt_at`/`scheduled_for` for Scheduled tasks, creation time for
Pending tasks. -/
def readyAt (t : Task) : Nat :=
  match t.nextAttemptAt with
  | some n => n
  | none =>
    match t.scheduledFor with
    | some m => m
    | none => t.createdAt

/-- Modelled from the spec (§4.1): a task is ready for claiming when its type
passes the worker's filter and it is Pending, or Scheduled with its readiness
time due. -/
def isReady (t : Task) (now : Nat) (types : Option (List String)) : Bool :=
  (match types with
   | none => true
   | some l => l.contains t.taskType) &&
  (t.status == .pending || (t.status == .scheduled && readyAt t ≤ now))

/-- Dispatch order (§4.1, §5): `better t u` says `t` is dispatched strictly
before `u` — higher priority first, then earlier readiness time, then lower id
as a deterministic tie-break. -/
def better (t u : Task) : Prop :=
  u.priority.rank < t.priority.rank ∨
    (t.priority.rank = u.priority.rank ∧
      (readyAt t < readyAt u ∨ (readyAt t = readyAt u ∧ t.id < u.id)))

instance (t u : Task) : Decidable (better t u) := by
  unfold better
  infer_instance

/-- The best (first-dispatched) task of a list, under `better`. -/
def pickBest : List Task → Option Task
  | [] => none
  | t :: ts =>
    match pickBest ts with
    | none => some t
    | some u => if better u t then some u else some t

/-- Modelled from the spec (§4.1): `ClaimNextReady(workerId, taskTypes?)` —
atomically select the best ready task under (priority, readiness-time) and
mark it Claimed by the worker, in the same transaction.  Returns the claimed
record, or `none` when nothing is ready. -/
def claimNextReady (s : Store) (workerId : Nat) (types : Option (List String))
    (now : Nat) : Option Task × Store :=
  match pickBest (s.tasks.filter (fun t => isReady t now types)) with
  | none => (none, s)
  | some t =>
    let t' : Task :=
      { t with status := .claimed, claimedBy := some workerId, claimedAt := some now }
    (some t',
      { s with
          tasks := updateTask t.id
            (fun u => { u with status := .claimed, claimedBy := some workerId,
                               claimedAt := some now }) s.tasks })

/-- Does worker `w` currently hold task `id` (status Claimed or Processing)? -/
def holdsClaim (t : Task) (w : Nat) : Prop :=
  (t.status = .claimed ∨ t.status = .processing) ∧ t.claimedBy = some w

instance (t : Task) (w : Nat) : Decidable (holdsClaim t w) := by
  unfold holdsClaim
  infer_instance

/-- Modelled from the spec (§3, §4.4): the claiming worker moves its task from
Claimed to Processing; a no-op when the caller does not hold the claim. -/
def startProcessing (s : Store) (id workerId : Nat) : Store :=
  match getTask s id with
  | none => s
  | some t =>
    if t.status = .claimed ∧ t.claimedBy = some workerId then
      { s with tasks := updateTask id (fun u => { u with status := .processing }) s.tasks }
    else s

/-- Modelled from the spec (§4.1): `CompleteTask(taskId, result)` — records the
result, clears the claim and marks the task Completed; only the claim holder
may complete.  A no-op when the caller does not hold the claim. -/
def completeTask (s : Store) (id workerId : Nat) (result : String) : Store :=
  match getTask s id with
  | none => s
  | some t =>
    if holdsClaim t workerId then
      { s with
          tasks := updateTask id
            (fun u => { u with status := .completed, result := some result,
                               claimedBy := none, claimedAt := none,
                               completions := u.completions + 1 }) s.tasks }
    else s

/-- Modelled from the spec (§4.1): `FailTask(taskId, error)` — increments
`attempt_count`; if the budget is exhausted the task is DeadLettered, else it
is rescheduled with `next_attempt_at = now + backoff(attempt_count)`; both
clear the claim.  A no-op when the caller does not hold the claim. -/
def failTask (s : Store) (id workerId : Nat) (err : String) (now : Nat) : Store :=
  match getTask s id with
  | none => s
  | some t =>
    if holdsClaim t workerId then
      { s with
          tasks := updateTask id
            (fun u =>
              if u.maxAttempts ≤ u.attemptCount + 1 then
                { u with status := .deadLettered, attemptCount := u.attemptCount + 1,
                         lastError := some err,
                         claimedBy := none, claimedAt := none }
              else
                { u with status := .scheduled, attemptCount := u.attemptCount + 1,
                         lastError := some err,
                         nextAttemptAt := some (now + backoff s.cfg (u.attemptCount + 1)),
                         claimedBy := none, claimedAt := none }) s.tasks }
    else s

/-- Modelled from the spec (§4.4, §7): a PermanentHandlerError dead-letters the
task immediately, regardless of remaining attempts, clearing the claim.  A
no-op when the caller does not hold the claim. -/
def deadLetterTask (s : Store) (id workerId : Nat) (err : String) : Store :=
  match getTask s id with
  | none => s
  | some t =>
    if holdsClaim t workerId then
      { s with
          tasks := updateTask id
            (fun u => { u with status := .deadLettered, lastError := some err,
                               claimedBy := none, claimedAt := none }) s.tasks }
    else s

/-- Modelled from the spec (§4.1): `CancelTask(taskId)` — allowed only from
Pending/Scheduled (cancellation is guaranteed only pre-claim, §5).  A no-op
otherwise. -/
def cancelTask (s : Store) (id : Nat) : Store :=
  match getTask s id with
  | none => s
  | some t =>
    if t.status = .pending ∨ t.status = .scheduled then
      { s with tasks := updateTask id (fun u => { u with status := .cancelled }) s.tasks }
    else s

/-- Modelled from the spec (§4.1): `ReapStaleClaims(timeout)` — resets
Claimed/Processing tasks whose `claimed_at` exceeds the timeout back to
Scheduled (due immediately), enabling crash recovery.  `staleAt` decides
whether a claim has gone stale. -/
def staleAt (claimedAt : Option Nat) (timeout now : Nat) : Bool :=
  match claimedAt with
  | some c => c + timeout ≤ now
  | none => true

def reapTask (timeout now : Nat) (t : Task) : Task :=
  if (t.status == .claimed || t.status == .processing) &&
      staleAt t.claimedAt timeout now then
    { t with status := .scheduled, claimedBy := none, claimedAt := none,
             nextAttemptAt := some now }
  else t

def reapStaleClaims (s : Store) (timeout now : Nat) : Store :=
  { s with tasks := s.tasks.map (reapTask timeout now) }

/-- The empty store over a configuration. -/
def initStore (cfg : Config) : Store :=
  { cfg := cfg, tasks := [], schedules := [], nextId := 0 }

/-- Modelled from the spec (§5): one atomic Task Store operation, performed by
some producer, worker or reaper.  Concurrency is modelled by interleaving:
the store's atomic claim is the single serialization point. -/
inductive Step : Store → Store → Prop
  | enqueue (s : Store) (taskType payload : String) (prio : Priority)
      (maxAttempts : Nat) (scheduledFor : Option Nat) (idempotencyKey : Option String)
      (now : Nat) :
      Step s (createTask s taskType payload prio maxAttempts scheduledFor idempotencyKey now).2
  | claim (s : Store) (workerId : Nat) (types : Option (List String)) (now : Nat) :
      Step s (claimNextReady s workerId types now).2
  | startProc (s : Store) (id workerId : Nat) :
      Step s (startProcessing s id workerId)
  | complete (s : Store) (id workerId : Nat) (result : String) :
      Step s (completeTask s id workerId result)
  | fail (s : Store) (id workerId : Nat) (err : String) (now : Nat) :
      Step s (failTask s id workerId err now)
  | deadLetter (s : Store) (id workerId : Nat) (err : String) :
      Step s (deadLetterTask s id workerId err)
  | cancel (s : Store) (id : Nat) :
      Step s (cancelTask s id)
  | reap (s : Store) (timeout now : Nat) :
      Step s (reapStaleClaims s timeout now)

/-- Stores reachable from the empty store by interleaved atomic operations. -/
inductive Reachable (cfg : Config) : Store → Prop
  | init : Reachable cfg (initStore cfg)
  | step {s s' : Store} : Reachable cfg s → Step s s' → Reachable cfg s'

/-- Number of tasks currently in a given status. -/
def countStatus (s : Store) (st : Status) : Nat :=
  (s.tasks.filter (fun t => t.status == st)).length

/-- Placeholder record used as the default of `Option.getD` below. -/
def defaultTask : Task :=
  newTask 0 "" "" .low 1 none none 0

/-- Concrete configuration for the worked runs (registered type `send_email`
as in spec §8 Scenario A; backoff base 120s, cap 480s, matching the 2/4/8
minute schedule of `part_011`). -/
def cfgW : Config :=
  { registered := ["send_email"], maxPayloadSize := 64, baseDelay := 120, maxDelay := 480 }

/-- Scenario A run (spec §8): enqueue `send_email` with `max_attempts = 3`,
then three claim/fail cycles by worker 1 whose handler always raises
`TransientHandlerError`. -/
def storeW1 : Store :=
  (createTask (initStore cfgW) "send_email" "hello" .high 3 none none 0).2

def storeW2 : Store := (claimNextReady storeW1 1 none 0).2

def storeF1 : Store := failTask storeW2 0 1 "TransientHandlerError" 0

def storeC2 : Store := (claimNextReady storeF1 1 none 1000).2

def storeF2 : Store := failTask storeC2 0 1 "TransientHandlerError" 1000

def storeC3 : Store := (claimNextReady storeF2 1 none 3000).2

def storeF3 : Store := failTask storeC3 0 1 "TransientHandlerError" 3000

/-- The task record claimed for its third attempt in the Scenario A run. -/
def taskC3 : Task := (getTask storeC3 0).getD defaultTask

/-- A store holding one non-terminal task with idempotency key `K`. -/
def storeK1 : Store :=
  (createTask (initStore cfgW) "send_email" "p" .normal 3 none (some "K") 0).2

/-- Scenario B run (spec §8): one High- and one Low-priority task enqueued,
both ready. -/
def cfgB : Config :=
  { registered := ["t"], maxPayloadSize := 10, baseDelay := 60, maxDelay := 480 }

def storeB1 : Store := (createTask (initStore cfgB) "t" "a" .high 3 none none 0).2

def storeB2 : Store := (createTask storeB1 "t" "b" .low 3 none none 0).2

/-- Modelled from the spec (§4.4): retry backoff parameters over ℚ, with the
jitter variance factor. -/
structure BackoffParams where
  baseDelay : ℚ
  maxDelay : ℚ
  varianceFactor : ℚ
deriving DecidableEq, Repr

/-- Modelled from the spec (§4.4): the deterministic part of the delay,
`min(maxDelay, baseDelay * 2^(attempt-1))`. -/
def backoffBase (c : BackoffParams) (attempt : Nat) : ℚ :=
  min c.maxDelay (c.baseDelay * 2 ^ (attempt - 1))

/-- Modelled from the spec (§4.4): jitter is drawn uniformly from
`[0, delay * varianceFactor)`. -/
def validJitter (c : BackoffParams) (attempt : Nat) (j : ℚ) : Prop :=
  0 ≤ j ∧ j < backoffBase c attempt * c.varianceFactor

/-- The delay actually slept for a given jitter draw. -/
def delayWithJitter (c : BackoffParams) (attempt : Nat) (j : ℚ) : ℚ :=
  backoffBase c attempt + j

/-- Modelled from the spec (§4.4, §8): delay in expectation across the jitter
distribution — the mean of the uniform distribution on `[0, b*vf)` is
`b*vf/2`, so the expected delay is `b * (1 + vf/2)`. -/
def expectedDelay (c : BackoffParams) (attempt : Nat) : ℚ :=
  backoffBase c attempt * (1 + c.varianceFactor / 2)

/-- Modelled from the spec (§4.6, §6): per-status counts reported by
`get_queue_stats`. -/
structure QueueStats where
  pendingCount : Nat
  scheduledCount : Nat
  claimedCount : Nat
  processingCount : Nat
  completedCount : Nat
  deadLetteredCount : Nat
  cancelledCount : Nat
deriving DecidableEq, Repr

def getQueueStats (s : Store) : QueueStats :=
  { pendingCount := countStatus s .pending
    scheduledCount := countStatus s .scheduled
    claimedCount := countStatus s .claimed
    processingCount := countStatus s .processing
    completedCount := countStatus s .completed
    deadLetteredCount := countStatus s .deadLettered
    cancelledCount := countStatus s .cancelled }

/-- Modelled from the spec (§4.6): the Metrics & Health Monitor inputs —
rolling failure rate, queue depth, throughput, latency. -/
structure HealthInputs where
  failureRate : ℚ
  queueDepth : ℚ
  throughput : ℚ
  latency : ℚ
deriving DecidableEq, Repr

/-- Modelled from the spec (§4.6): weights of the score combination and the
configurable classification thresholds. -/
structure HealthConfig where
  wFailure : ℚ
  wQueue : ℚ
  wLatency : ℚ
  latencyNorm : ℚ
  healthyThreshold : ℚ
  degradedThreshold : ℚ
deriving DecidableEq, Repr

def clamp01 (x : ℚ) : ℚ := min 1 (max 0 x)

/-- Modelled from the spec (§4.6): a single health score in [0,1] from a
weighted combination of failure rate, queue-depth-to-throughput ratio, and
latency (each penalty term clamped to [0,1], and so the combination). -/
def healthScore (c : HealthConfig) (i : HealthInputs) : ℚ :=
  1 - clamp01 (c.wFailure * clamp01 i.failureRate +
      c.wQueue * clamp01 (i.queueDepth / max 1 i.throughput) +
      c.wLatency * clamp01 (i.latency / max 1 c.latencyNorm))

inductive HealthStatus
  | healthy
  | degraded
  | unhealthy
deriving DecidableEq, Repr

/-- Modelled from the spec (§4.6): classification of the score into
healthy/degraded/unhealthy by the configured thresholds. -/
def classifyHealth (c : HealthConfig) (i : HealthInputs) : HealthStatus :=
  if c.healthyThreshold ≤ healthScore c i then .healthy
  else if c.degradedThreshold ≤ healthScore c i then .degraded
  else .unhealthy

/-- Health inputs derived from the store: dead-letter rate over finished
tasks, backlog depth, completed throughput. -/
def healthInputsOf (s : Store) : HealthInputs :=
  { failureRate := (countStatus s .deadLettered : ℚ) /
      max 1 ((countStatus s .completed + countStatus s .deadLettered : Nat) : ℚ)
    queueDepth := ((countStatus s .pending + countStatus s .scheduled : Nat) : ℚ)
    throughput := (countStatus s .completed : ℚ)
    latency := 0 }

/-- Modelled from the spec (§4.6, §6): `get_queue_stats` as a state-passing
operation — it returns the aggregate and the (unchanged) store. -/
def getQueueStatsOp (s : Store) : QueueStats × Store :=
  (getQueueStats s, s)

/-- Modelled from the spec (§4.6, §6): `get_health` as a state-passing
operation. -/
def getHealthOp (c : HealthConfig) (s : Store) : (ℚ × HealthStatus) × Store :=
  ((healthScore c (healthInputsOf s), classifyHealth c (healthInputsOf s)), s)

/-- Modelled from the spec (§6): `list_tasks(filters)` as a state-passing
aggregate query. -/
def listTasksOp (s : Store) (pred : Task → Bool) : List Task × Store :=
  (s.tasks.filter pred, s)

/-- Modelled from the spec (§6): `get_task(task_id)` as a state-passing
query. -/
def getTaskOp (s : Store) (id : Nat) : Option Task × Store :=
  (getTask s id, s)

/-- Worker `w` holds task `tid` in the store: some record with that id is
Claimed/Processing with `claimed_by = w`. -/
def holdsTask (s : Store) (w tid : Nat) : Prop :=
  ∃ t ∈ s.tasks, t.id = tid ∧ holdsClaim t w

/-- Per-task store invariant: the retry budget is respected (`attempt_count`
strictly below `max_attempts` while the task is live, never above it), and the
ghost completion counter matches the status. -/
def TaskInv (t : Task) : Prop :=
  1 ≤ t.maxAttempts ∧
  t.attemptCount ≤ t.maxAttempts ∧
  (t.status.isTerminal = false → t.attemptCount < t.maxAttempts) ∧
  (t.status = .completed → t.completions = 1) ∧
  (t.status ≠ .completed → t.completions = 0)

/-- Store invariant: task ids are fresh and duplicate-free, and every task
satisfies `TaskInv`. -/
def Inv (s : Store) : Prop :=
  (∀ t ∈ s.tasks, t.id < s.nextId) ∧
  (s.tasks.map Task.id).Nodup ∧
  (∀ t ∈ s.tasks, TaskInv t)

end TaskQueue

namespace Dashboard

/-!
Embedding of the dashboard WebSocket hook, from the TypeScript source
`useWebSocket.ts` (shipped as `part_004`).  Only the reconnection state
machine is modelled: the refs `reconnectAttempts`, `isManualClose`,
`reconnectTimer`, the `connectionStatus`/`error` state, and the handlers
`onopen`, `onclose`, `disconnect`.  `scheduledDelays` is a ghost list
recording the delay of every reconnection attempt ever scheduled.
-/

/-- Hook options (useWebSocket.ts lines 9-14). -/
structure WSOptions where
  reconnectInterval : ℚ
  maxReconnectAttempts : Nat
  heartbeatInterval : ℚ
deriving DecidableEq, Repr

/-- Option defaults (useWebSocket.ts lines 19-24). -/
def defaultOptions : WSOptions :=
  { reconnectInterval := 3000, maxReconnectAttempts := 5, heartbeatInterval := 30000 }

/-- The `ConnectionStatus` union type (useWebSocket.ts line 16). -/
inductive ConnectionStatus
  | connecting
  | connected
  | disconnected
  | reconnecting
  | error
deriving DecidableEq, Repr

/-- Hook state (useWebSocket.ts lines 26-34). -/
structure HookState where
  connectionStatus : ConnectionStatus
  error : Option String
  reconnectAttempts : Nat
  isManualClose : Bool
  reconnectTimer : Option ℚ
  scheduledDelays : List ℚ
deriving DecidableEq, Repr

/-- Initial hook state on mount (useWebSocket.ts lines 26-34 and 163-165). -/
def initHookState : HookState :=
  { connectionStatus := .connecting
    error := none
    reconnectAttempts := 0
    isManualClose := false
    reconnectTimer := none
    scheduledDelays := [] }

/-- The `onopen` handler (useWebSocket.ts lines 47-61): status Connected,
attempt counter reset, error cleared. -/
def onOpen (st : HookState) : HookState :=
  { st with connectionStatus := .connected, reconnectAttempts := 0, error := none }

/-- The `onclose` handler (useWebSocket.ts lines 83-102): when the close was
not manual and the attempt counter is below the cap, increment the counter and
schedule a reconnect after `reconnectInterval * 1.5^(attempts-1)` (the
exponent uses the post-increment counter value); otherwise become
Disconnected, setting the error message when the cap has been reached. -/
def onClose (o : WSOptions) (st : HookState) : HookState :=
  if st.isManualClose = false ∧ st.reconnectAttempts < o.maxReconnectAttempts then
    { st with
        connectionStatus := .reconnecting
        reconnectAttempts := st.reconnectAttempts + 1
        reconnectTimer :=
          some (o.reconnectInterval * (3 / 2 : ℚ) ^ (st.reconnectAttempts + 1 - 1))
        scheduledDelays :=
          o.reconnectInterval * (3 / 2 : ℚ) ^ (st.reconnectAttempts + 1 - 1) ::
            st.scheduledDelays }
  else
    { st with
        connectionStatus := .disconnected
        error :=
          if o.maxReconnectAttempts ≤ st.reconnectAttempts then
            some "Max reconnection attempts reached"
          else st.error }

/-- The `disconnect` callback (useWebSocket.ts lines 117-136): marks the close
manual, clears the pending reconnect timer, and sets status Disconnected. -/
def disconnect (st : HookState) : HookState :=
  { st with
      isManualClose := true
      reconnectTimer := none
      connectionStatus := .disconnected }

/-- `n` consecutive connection-close events. -/
def iterClose (o : WSOptions) : Nat → HookState → HookState
  | 0, st => st
  | n + 1, st => iterClose o n (onClose o st)

end Dashboard

namespace TaskQueue

theorem updateTask_map_id {id : Nat} {f : Task → Task}
    (hf : ∀ t, (f t).id = t.id) (l : List Task) :
    (updateTask id f l).map Task.id = l.map Task.id := by
  unfold updateTask
  rw [List.map_map]
  apply List.map_congr_left
  intro t _
  by_cases h : t.id = id <;> simp [h, hf]

theorem mem_updateTask {u : Task} {id : Nat} {f : Task → Task} {l : List Task}
    (h : u ∈ updateTask id f l) :
    ∃ t ∈ l, u = if t.id = id then f t else t := by
  unfold updateTask at h
  obtain ⟨t, ht, rfl⟩ := List.mem_map.1 h
  exact ⟨t, ht, rfl⟩

theorem find?_id_unique {l : List Task} (hnd : (l.map Task.id).Nodup)
    {id : Nat} {t u : Task} (hfind : l.find? (fun x => x.id == id) = some t)
    (hu : u ∈ l) (hid : u.id = id) : u = t := by
  have ht := List.mem_of_find?_eq_some hfind
  have hp := List.find?_some hfind
  have hp' : t.id = id := by simpa using hp
  exact List.inj_on_of_nodup_map hnd hu ht (by rw [hid, hp'])

theorem getTask_eq_of_mem {s : Store} (hnd : (s.tasks.map Task.id).Nodup)
    {t : Task} (ht : t ∈ s.tasks) : getTask s t.id = some t := by
  unfold getTask
  cases hf : s.tasks.find? (fun x => x.id == t.id) with
  | none =>
    exfalso
    have := List.find?_eq_none.1 hf t ht
    simp at this
  | some u =>
    have := find?_id_unique hnd hf ht rfl
    rw [this]

theorem find?_updateTask {l : List Task} {id : Nat} {f : Task → Task}
    (hfid : ∀ u, (f u).id = u.id) {t : Task}
    (h : l.find? (fun x => x.id == id) = some t) :
    (updateTask id f l).find? (fun x => x.id == id) = some (f t) := by
  induction l with
  | nil => simp at h
  | cons a l ih =>
    by_cases ha : a.id = id
    · rw [List.find?_cons_of_pos _ (by simpa using ha)] at h
      have hat : a = t := by injection h
      unfold updateTask
      simp only [List.map_cons, if_pos ha]
      rw [← hat]
      exact List.find?_cons_of_pos _ (by simpa using (hfid a).trans ha)
    · rw [List.find?_cons_of_neg _ (by simpa using ha)] at h
      have := ih h
      unfold updateTask at this ⊢
      simp only [List.map_cons, if_neg ha]
      rw [List.find?_cons_of_neg _ (by simpa using ha)]
      exact this

/-- `Inv` is preserved by an update of the (unique) record with a given id,
provided the update preserves the id and the per-task invariant. -/
theorem Inv.update {s : Store} (h : Inv s) {id : Nat} {f : Task → Task} {t : Task}
    (hfind : getTask s id = some t)
    (hfid : ∀ u, (f u).id = u.id)
    (hft : TaskInv t → TaskInv (f t)) :
    Inv { s with tasks := updateTask id f s.tasks } := by
  obtain ⟨hlt, hnd, htask⟩ := h
  refine ⟨?_, ?_, ?_⟩
  · intro u hu
    obtain ⟨v, hv, rfl⟩ := mem_updateTask hu
    by_cases hc : v.id = id
    · simpa [hc, hfid] using hlt v hv
    · simpa [hc] using hlt v hv
  · simpa [updateTask_map_id hfid] using hnd
  · intro u hu
    obtain ⟨v, hv, rfl⟩ := mem_updateTask hu
    by_cases hc : v.id = id
    · have hvt : v = t := find?_id_unique hnd hfind hv hc
      subst hvt
      simpa [hc] using hft (htask v hv)
    · simpa [hc] using htask v hv

theorem better_irrefl (t : Task) : ¬ better t t := by
  unfold better
  omega

theorem better_asymm {t u : Task} (h : better t u) : ¬ better u t := by
  unfold better at h ⊢
  omega

theorem not_better_trans {t u v : Task} (h1 : ¬ better u t) (h2 : ¬ better v u) :
    ¬ better v t := by
  unfold better at h1 h2 ⊢
  omega

theorem pickBest_eq_none {l : List Task} (h : pickBest l = none) : l = [] := by
  cases l with
  | nil => rfl
  | cons a l =>
    exfalso
    unfold pickBest at h
    cases hp : pickBest l <;> simp [hp] at h
    split at h <;> simp_all

theorem pickBest_mem {l : List Task} {t : Task} (h : pickBest l = some t) : t ∈ l := by
  induction l generalizing t with
  | nil => simp [pickBest] at h
  | cons a l ih =>
    unfold pickBest at h
    cases hp : pickBest l with
    | none =>
      rw [hp] at h
      dsimp only at h
      have ht : a = t := Option.some.inj h
      exact ht ▸ List.mem_cons_self a l
    | some u =>
      rw [hp] at h
      dsimp only at h
      by_cases hb : better u a
      · rw [if_pos hb] at h
        have ht : u = t := Option.some.inj h
        exact List.mem_cons_of_mem a (ht ▸ ih hp)
      · rw [if_neg hb] at h
        have ht : a = t := Option.some.inj h
        exact ht ▸ List.mem_cons_self a l

theorem pickBest_not_better {l : List Task} {t : Task} (h : pickBest l = some t) :
    ∀ u ∈ l, ¬ better u t := by
  induction l generalizing t with
  | nil => simp [pickBest] at h
  | cons a l ih =>
    unfold pickBest at h
    cases hp : pickBest l with
    | none =>
      rw [hp] at h
      dsimp only at h
      have ht : a = t := Option.some.inj h
      subst ht
      have hl := pickBest_eq_none hp
      subst hl
      intro u hu
      rcases List.mem_cons.1 hu with rfl | hu
      · exact better_irrefl u
      · simp at hu
    | some b =>
      rw [hp] at h
      dsimp only at h
      by_cases hb : better b a
      · rw [if_pos hb] at h
        have ht : b = t := Option.some.inj h
        subst ht
        intro u hu
        rcases List.mem_cons.1 hu with rfl | hu
        · exact better_asymm hb
        · exact ih hp u hu
      · rw [if_neg hb] at h
        have ht : a = t := Option.some.inj h
        subst ht
        intro u hu
        rcases List.mem_cons.1 hu with rfl | hu
        · exact better_irrefl u
        · exact not_better_trans hb (ih hp u hu)

theorem status_of_isReady {t : Task} {now : Nat} {ty : Option (List String)}
    (h : isReady t now ty = true) : t.status = .pending ∨ t.status = .scheduled := by
  unfold isReady at h
  simp only [Bool.and_eq_true, Bool.or_eq_true, beq_iff_eq, decide_eq_true_eq] at h
  rcases h.2 with h' | h'
  · exact Or.inl h'
  · exact Or.inr h'.1

theorem taskInv_newTask (id : Nat) (ty p : String) (pr : Priority) (ma : Nat)
    (sf : Option Nat) (ik : Option String) (now : Nat) :
    TaskInv (newTask id ty p pr ma sf ik now) := by
  unfold TaskInv newTask
  cases sf <;> simp [Status.isTerminal]

theorem inv_initStore (cfg : Config) : Inv (initStore cfg) := by
  refine ⟨?_, ?_, ?_⟩ <;> simp [initStore]

theorem inv_insertNew {s : Store} (h : Inv s) (ty p : String) (pr : Priority)
    (ma : Nat) (sf : Option Nat) (ik : Option String) (now : Nat) :
    Inv { s with
            tasks := newTask s.nextId ty p pr ma sf ik now :: s.tasks
            nextId := s.nextId + 1 } := by
  obtain ⟨hlt, hnd, htask⟩ := h
  refine ⟨?_, ?_, ?_⟩
  · intro u hu
    rcases List.mem_cons.1 hu with rfl | hu
    · simp [newTask]
    · exact Nat.lt_succ_of_lt (hlt u hu)
  · simp only [List.map_cons, List.nodup_cons]
    refine ⟨?_, hnd⟩
    intro hmem
    obtain ⟨v, hv, hid⟩ := List.mem_map.1 hmem
    have := hlt v hv
    simp [newTask] at hid
    omega
  · intro u hu
    rcases List.mem_cons.1 hu with rfl | hu
    · exact taskInv_newTask _ _ _ _ _ _ _ _
    · exact htask u hu

theorem inv_createTask {s : Store} (h : Inv s) (ty p : String) (pr : Priority)
    (ma : Nat) (sf : Option Nat) (ik : Option String) (now : Nat) :
    Inv (createTask s ty p pr ma sf ik now).2 := by
  unfold createTask
  split
  · exact h
  · split
    · exact h
    · cases ik with
      | none => exact inv_insertNew h ty p pr ma sf none now
      | some k =>
        cases hf : findNonTerminalByKey s.tasks k with
        | some t =>
          simp only [hf]
          exact h
        | none =>
          simp only [hf]
          exact inv_insertNew h ty p pr ma sf (some k) now

theorem inv_claimNextReady {s : Store} (h : Inv s) (w : Nat)
    (types : Option (List String)) (now : Nat) :
    Inv (claimNextReady s w types now).2 := by
  unfold claimNextReady
  cases hp : pickBest (s.tasks.filter fun t => isReady t now types) with
  | none => exact h
  | some t =>
    have htf := pickBest_mem hp
    have htmem : t ∈ s.tasks := (List.mem_filter.1 htf).1
    have hready : isReady t now types = true := (List.mem_filter.1 htf).2
    have hst := status_of_isReady hready
    refine Inv.update h (getTask_eq_of_mem h.2.1 htmem) (fun u => rfl) ?_
    intro ⟨h1, h2, h3, h4, h5⟩
    have hterm : t.status.isTerminal = false := by
      rcases hst with h' | h' <;> simp [h', Status.isTerminal]
    have hne : t.status ≠ .completed := by
      rcases hst with h' | h' <;> simp [h']
    exact ⟨h1, h2, fun _ => h3 hterm, by simp, fun _ => h5 hne⟩

theorem inv_startProcessing {s : Store} (h : Inv s) (id w : Nat) :
    Inv (startProcessing s id w) := by
  unfold startProcessing
  cases hg : getTask s id with
  | none => exact h
  | some t =>
    dsimp only
    by_cases hc : t.status = .claimed ∧ t.claimedBy = some w
    · rw [if_pos hc]
      refine Inv.update h hg (fun u => rfl) ?_
      intro ⟨h1, h2, h3, h4, h5⟩
      have hterm : t.status.isTerminal = false := by simp [hc.1, Status.isTerminal]
      have hne : t.status ≠ .completed := by simp [hc.1]
      exact ⟨h1, h2, fun _ => h3 hterm, by simp, fun _ => h5 hne⟩
    · rw [if_neg hc]
      exact h

theorem inv_completeTask {s : Store} (h : Inv s) (id w : Nat) (res : String) :
    Inv (completeTask s id w res) := by
  unfold completeTask
  cases hg : getTask s id with
  | none => exact h
  | some t =>
    dsimp only
    by_cases hc : holdsClaim t w
    · rw [if_pos hc]
      refine Inv.update h hg (fun u => rfl) ?_
      intro ⟨h1, h2, h3, h4, h5⟩
      have hne : t.status ≠ .completed := by
        rcases hc.1 with h' | h' <;> simp [h']
      refine ⟨h1, h2, by simp [Status.isTerminal], ?_, by simp⟩
      intro _
      rw [h5 hne]
    · rw [if_neg hc]
      exact h

theorem inv_failTask {s : Store} (h : Inv s) (id w : Nat) (err : String) (now : Nat) :
    Inv (failTask s id w err now) := by
  unfold failTask
  cases hg : getTask s id with
  | none => exact h
  | some t =>
    dsimp only
    by_cases hc : holdsClaim t w
    · rw [if_pos hc]
      refine Inv.update h hg (fun u => by split <;> rfl) ?_
      intro ⟨h1, h2, h3, h4, h5⟩
      have hterm : t.status.isTerminal = false := by
        rcases hc.1 with h' | h' <;> simp [h', Status.isTerminal]
      have hne : t.status ≠ .completed := by
        rcases hc.1 with h' | h' <;> simp [h']
      have hlt := h3 hterm
      by_cases hex : t.maxAttempts ≤ t.attemptCount + 1
      · simp only [if_pos hex]
        refine ⟨h1, ?_, ?_, ?_, ?_⟩ <;> dsimp only
        · omega
        · simp [Status.isTerminal]
        · simp
        · intro _
          exact h5 hne
      · simp only [if_neg hex]
        refine ⟨h1, ?_, ?_, ?_, ?_⟩ <;> dsimp only
        · omega
        · intro _
          omega
        · simp
        · intro _
          exact h5 hne
    · rw [if_neg hc]
      exact h

theorem inv_deadLetterTask {s : Store} (h : Inv s) (id w : Nat) (err : String) :
    Inv (deadLetterTask s id w err) := by
  unfold deadLetterTask
  cases hg : getTask s id with
  | none => exact h
  | some t =>
    dsimp only
    by_cases hc : holdsClaim t w
    · rw [if_pos hc]
      refine Inv.update h hg (fun u => rfl) ?_
      intro ⟨h1, h2, h3, h4, h5⟩
      have hne : t.status ≠ .completed := by
        rcases hc.1 with h' | h' <;> simp [h']
      exact ⟨h1, h2, by simp [Status.isTerminal], by simp, fun _ => h5 hne⟩
    · rw [if_neg hc]
      exact h

theorem inv_cancelTask {s : Store} (h : Inv s) (id : Nat) :
    Inv (cancelTask s id) := by
  unfold cancelTask
  cases hg : getTask s id with
  | none => exact h
  | some t =>
    dsimp only
    by_cases hc : t.status = .pending ∨ t.status = .scheduled
    · rw [if_pos hc]
      refine Inv.update h hg (fun u => rfl) ?_
      intro ⟨h1, h2, h3, h4, h5⟩
      have hne : t.status ≠ .completed := by
        rcases hc with h' | h' <;> simp [h']
      exact ⟨h1, h2, by simp [Status.isTerminal], by simp, fun _ => h5 hne⟩
    · rw [if_neg hc]
      exact h

theorem reapTask_id (timeout now : Nat) (t : Task) :
    (reapTask timeout now t).id = t.id := by
  unfold reapTask
  split <;> rfl

theorem inv_reapStaleClaims {s : Store} (h : Inv s) (timeout now : Nat) :
    Inv (reapStaleClaims s timeout now) := by
  obtain ⟨hlt, hnd, htask⟩ := h
  unfold reapStaleClaims
  refine ⟨?_, ?_, ?_⟩
  · intro u hu
    obtain ⟨v, hv, rfl⟩ := List.mem_map.1 hu
    rw [reapTask_id]
    exact hlt v hv
  · show ((s.tasks.map (reapTask timeout now)).map Task.id).Nodup
    rw [List.map_map]
    have heq : s.tasks.map (Task.id ∘ reapTask timeout now) = s.tasks.map Task.id :=
      List.map_congr_left (fun v _ => reapTask_id timeout now v)
    rw [heq]
    exact hnd
  · intro u hu
    obtain ⟨v, hv, rfl⟩ := List.mem_map.1 hu
    obtain ⟨h1, h2, h3, h4, h5⟩ := htask v hv
    unfold reapTask
    split
    · rename_i hc
      have hst : v.status = .claimed ∨ v.status = .processing := by
        simp only [Bool.and_eq_true, Bool.or_eq_true, beq_iff_eq] at hc
        exact hc.1
      have hterm : v.status.isTerminal = false := by
        rcases hst with h' | h' <;> simp [h', Status.isTerminal]
      have hne : v.status ≠ .completed := by
        rcases hst with h' | h' <;> simp [h']
      exact ⟨h1, h2, fun _ => h3 hterm, by simp, fun _ => h5 hne⟩
    · exact ⟨h1, h2, h3, h4, h5⟩

/-- Every atomic Task Store operation preserves the store invariant. -/
theorem inv_step {s s' : Store} (h : Inv s) (hs : Step s s') : Inv s' := by
  cases hs with
  | enqueue ty p pr ma sf ik now => exact inv_createTask h ty p pr ma sf ik now
  | claim w types now => exact inv_claimNextReady h w types now
  | startProc id w => exact inv_startProcessing h id w
  | complete id w res => exact inv_completeTask h id w res
  | fail id w err now => exact inv_failTask h id w err now
  | deadLetter id w err => exact inv_deadLetterTask h id w err
  | cancel id => exact inv_cancelTask h id
  | reap timeout now => exact inv_reapStaleClaims h timeout now

/-- Every reachable store satisfies the store invariant. -/
theorem reachable_inv {cfg : Config} {s : Store} (h : Reachable cfg s) : Inv s := by
  induction h with
  | init => exact inv_initStore cfg
  | step _ hs ih => exact inv_step ih hs

theorem reachable_storeW2 : Reachable cfgW storeW2 :=
  Reachable.step
    (Reachable.step Reachable.init
      (Step.enqueue (initStore cfgW) "send_email" "hello" .high 3 none none 0))
    (Step.claim storeW1 1 none 0)

theorem reachable_storeC3 : Reachable cfgW storeC3 :=
  Reachable.step
    (Reachable.step
      (Reachable.step
        (Reachable.step reachable_storeW2
          (Step.fail storeW2 0 1 "TransientHandlerError" 0))
        (Step.claim storeF1 1 none 1000))
      (Step.fail storeC2 0 1 "TransientHandlerError" 1000))
    (Step.claim storeF2 1 none 3000)

theorem completed_dl_count (l : List Task)
    (h : ∀ t ∈ l, t.status = .completed ∨ t.status = .deadLettered) :
    (l.filter (fun t => t.status == Status.completed)).length +
      (l.filter (fun t => t.status == Status.deadLettered)).length = l.length := by
  induction l with
  | nil => simp
  | cons a l ih =>
    have ha := h a (List.mem_cons_self a l)
    have ih' := ih (fun t ht => h t (List.mem_cons_of_mem a ht))
    rcases ha with ha | ha <;> simp [List.filter_cons, ha] <;> omega

/-- C1: Mutual exclusion of claims — in every reachable store, at most one
worker holds any given task in status Claimed/Processing; no task is ever
completed more than once; and in a final state where every task is terminal
and none was cancelled, completed + dead-lettered tasks account for all M
tasks. -/
theorem claim_mutual_exclusion {cfg : Config} {s : Store} (h : Reachable cfg s) :
    (∀ w₁ w₂ tid, holdsTask s w₁ tid → holdsTask s w₂ tid → w₁ = w₂) ∧
    (∀ t ∈ s.tasks, t.completions ≤ 1) ∧
    ((∀ t ∈ s.tasks, t.status.isTerminal = true ∧ t.status ≠ .cancelled) →
      countStatus s .completed + countStatus s .deadLettered = s.tasks.length) := by
  obtain ⟨hlt, hnd, htask⟩ := reachable_inv h
  refine ⟨?_, ?_, ?_⟩
  · rintro w₁ w₂ tid ⟨t₁, ht₁, hid₁, hc₁⟩ ⟨t₂, ht₂, hid₂, hc₂⟩
    have heq : t₁ = t₂ :=
      List.inj_on_of_nodup_map hnd ht₁ ht₂ (by rw [hid₁, hid₂])
    subst heq
    exact Option.some.inj (hc₁.2.symm.trans hc₂.2)
  · intro t ht
    obtain ⟨_, _, _, h4, h5⟩ := htask t ht
    by_cases hc : t.status = .completed
    · rw [h4 hc]
    · rw [h5 hc]
      exact Nat.zero_le 1
  · intro hall
    unfold countStatus
    apply completed_dl_count
    intro t ht
    obtain ⟨hterm, hnc⟩ := hall t ht
    cases hst : t.status with
    | completed => exact Or.inl rfl
    | deadLettered => exact Or.inr rfl
    | cancelled => exact absurd hst hnc
    | pending => rw [hst] at hterm; simp [Status.isTerminal] at hterm
    | scheduled => rw [hst] at hterm; simp [Status.isTerminal] at hterm
    | claimed => rw [hst] at hterm; simp [Status.isTerminal] at hterm
    | processing => rw [hst] at hterm; simp [Status.isTerminal] at hterm

/-- Witness for C1, applied to the concrete two-step reachable store of the
Scenario A run. -/
theorem claim_mutual_exclusion_witness :
    (∀ w₁ w₂ tid, holdsTask storeW2 w₁ tid → holdsTask storeW2 w₂ tid → w₁ = w₂) ∧
    (∀ t ∈ storeW2.tasks, t.completions ≤ 1) :=
  ⟨(claim_mutual_exclusion reachable_storeW2).1,
   (claim_mutual_exclusion reachable_storeW2).2.1⟩

/-- C2: Retry-budget invariant — in every reachable store `attempt_count ≤
max_attempts` for every task, no non-DeadLettered task exceeds its budget,
and a `FailTask` that exhausts the budget forces status DeadLettered. -/
theorem retry_budget_invariant {cfg : Config} {s : Store} (h : Reachable cfg s) :
    (∀ t ∈ s.tasks, t.attemptCount ≤ t.maxAttempts ∧
        (t.status ≠ .deadLettered → ¬ t.maxAttempts < t.attemptCount)) ∧
    (∀ (id w : Nat) (err : String) (now : Nat) (t : Task),
        getTask s id = some t → holdsClaim t w →
        t.maxAttempts ≤ t.attemptCount + 1 →
        ∃ t', getTask (failTask s id w err now) id = some t' ∧
          t'.status = .deadLettered) := by
  obtain ⟨hlt, hnd, htask⟩ := reachable_inv h
  constructor
  · intro t ht
    obtain ⟨h1, h2, h3, h4, h5⟩ := htask t ht
    exact ⟨h2, fun _ => by omega⟩
  · intro id w err now t hg hc hex
    unfold failTask
    rw [hg]
    dsimp only
    rw [if_pos hc]
    refine ⟨_, find?_updateTask (fun u => by split <;> rfl) hg, ?_⟩
    dsimp only
    rw [if_pos hex]

/-- Witness for C2: the Scenario A store in which task 0 is claimed for its
third and final attempt. -/
theorem retry_budget_invariant_witness :
    (∀ t ∈ storeC3.tasks, t.attemptCount ≤ t.maxAttempts ∧
        (t.status ≠ .deadLettered → ¬ t.maxAttempts < t.attemptCount)) ∧
    (∃ t', getTask (failTask storeC3 0 1 "TransientHandlerError" 3000) 0 = some t' ∧
        t'.status = .deadLettered) :=
  ⟨(retry_budget_invariant reachable_storeC3).1,
   (retry_budget_invariant reachable_storeC3).2 0 1 "TransientHandlerError" 3000
     taskC3 (by rfl) (by decide) (by decide)⟩

/-- C3: FailTask postcondition — every `FailTask` increments `attempt_count`
and clears the claim; an exhausted budget forces DeadLettered, otherwise the
task returns to Scheduled with `next_attempt_at = now + backoff(attempt_count)`.
Scenario A: after three claim/fail cycles of a `send_email` task with
`max_attempts = 3` and an always-transiently-failing handler, the task is
DeadLettered with `attempt_count = 3`. -/
theorem failTask_postcondition :
    (∀ (s : Store) (id w : Nat) (err : String) (now : Nat) (t : Task),
      getTask s id = some t → holdsClaim t w →
      ∃ t', getTask (failTask s id w err now) id = some t' ∧
        t'.attemptCount = t.attemptCount + 1 ∧
        t'.claimedBy = none ∧ t'.claimedAt = none ∧
        (t.maxAttempts ≤ t.attemptCount + 1 → t'.status = .deadLettered) ∧
        (t.attemptCount + 1 < t.maxAttempts →
          t'.status = .scheduled ∧
          t'.nextAttemptAt = some (now + backoff s.cfg (t.attemptCount + 1)))) ∧
    ((getTask storeF3 0).map (fun t => (t.status, t.attemptCount)) =
      some (.deadLettered, 3)) := by
  constructor
  · intro s id w err now t hg hc
    unfold failTask
    rw [hg]
    dsimp only
    rw [if_pos hc]
    refine ⟨_, find?_updateTask (fun u => by split <;> rfl) hg, ?_⟩
    by_cases hex : t.maxAttempts ≤ t.attemptCount + 1
    · rw [if_pos hex]
      exact ⟨rfl, rfl, rfl, fun _ => rfl, fun hlt => absurd hex (by omega)⟩
    · rw [if_neg hex]
      exact ⟨rfl, rfl, rfl, fun h' => absurd h' hex, fun _ => ⟨rfl, rfl⟩⟩
  · rfl

/-- Witness for C3, applied to the third claim/fail cycle of Scenario A. -/
theorem failTask_postcondition_witness :
    (∃ t', getTask (failTask storeC3 0 1 "TransientHandlerError" 3000) 0 = some t' ∧
      t'.attemptCount = taskC3.attemptCount + 1 ∧
      t'.claimedBy = none ∧ t'.claimedAt = none ∧
      (taskC3.maxAttempts ≤ taskC3.attemptCount + 1 → t'.status = .deadLettered) ∧
      (taskC3.attemptCount + 1 < taskC3.maxAttempts →
        t'.status = .scheduled ∧
        t'.nextAttemptAt =
          some (3000 + backoff storeC3.cfg (taskC3.attemptCount + 1)))) ∧
    ((getTask storeF3 0).map (fun t => (t.status, t.attemptCount)) =
      some (.deadLettered, 3)) :=
  ⟨failTask_postcondition.1 storeC3 0 1 "TransientHandlerError" 3000 taskC3
      (by rfl) (by decide),
   failTask_postcondition.2⟩

/-- C4: Idempotent enqueue — while a non-terminal task with key `k` exists, an
enqueue with key `k` creates nothing and returns the existing id; hence two
enqueues with the same key while the first is non-terminal return the same
task id (and the second leaves the store unchanged). -/
theorem enqueue_idempotent :
    (∀ (s : Store) (ty p : String) (pr : Priority) (ma : Nat) (sf : Option Nat)
        (k : String) (now : Nat) (t : Task),
      findNonTerminalByKey s.tasks k = some t →
      ty ∈ s.cfg.registered → p.length ≤ s.cfg.maxPayloadSize →
      createTask s ty p pr ma sf (some k) now = (.ok t.id, s)) ∧
    (∀ (s : Store) (ty p : String) (pr : Priority) (ma : Nat) (sf : Option Nat)
        (k : String) (now now' : Nat) (id₁ : Nat) (s₁ : Store),
      createTask s ty p pr ma sf (some k) now = (.ok id₁, s₁) →
      createTask s₁ ty p pr ma sf (some k) now' = (.ok id₁, s₁)) := by
  constructor
  · intro s ty p pr ma sf k now t hf hty hsz
    unfold createTask
    rw [if_neg (fun hn => hn hty), if_neg (by omega)]
    dsimp only
    rw [hf]
  · intro s ty p pr ma sf k now now' id₁ s₁ h1
    unfold createTask at h1 ⊢
    by_cases hr : ty ∉ s.cfg.registered
    · rw [if_pos hr] at h1
      exact absurd (congrArg Prod.fst h1) (by simp)
    · rw [if_neg hr] at h1
      by_cases hsz : p.length > s.cfg.maxPayloadSize
      · rw [if_pos hsz] at h1
        exact absurd (congrArg Prod.fst h1) (by simp)
      · rw [if_neg hsz] at h1
        dsimp only at h1
        cases hf : findNonTerminalByKey s.tasks k with
        | some t =>
          rw [hf] at h1
          cases h1
          rw [if_neg hr, if_neg hsz]
          dsimp only
          rw [hf]
        | none =>
          rw [hf] at h1
          cases h1
          rw [if_neg hr, if_neg hsz]
          dsimp only
          have hhead : ((newTask s.nextId ty p pr ma sf (some k) now).idempotencyKey
                == some k &&
              !(newTask s.nextId ty p pr ma sf (some k) now).status.isTerminal)
              = true := by
            cases sf <;> simp [newTask, Status.isTerminal]
          unfold findNonTerminalByKey
          have hfind : List.find?
              (fun t => t.idempotencyKey == some k && !t.status.isTerminal)
              (newTask s.nextId ty p pr ma sf (some k) now :: s.tasks) =
              some (newTask s.nextId ty p pr ma sf (some k) now) :=
            List.find?_cons_of_pos _ hhead
          rw [hfind]
          rfl

/-- Witness for C4: a second enqueue with key `K` against the store already
holding the task created by the first. -/
theorem enqueue_idempotent_witness :
    createTask storeK1 "send_email" "p" .normal 3 none (some "K") 99 =
      (.ok 0, storeK1) :=
  enqueue_idempotent.2 (initStore cfgW) "send_email" "p" .normal 3 none "K" 0 99 0
    storeK1 (by rfl)

/-- C5: Priority-first dispatch — a successful `ClaimNextReady` returns a
ready task that no other ready task beats in the (priority, readiness-time)
order: every other ready task has lower-or-equal priority, and at equal
priority a readiness time no earlier than the claimed one (ready-time FIFO
within a lane).  Scenario B: with one High- and one Low-priority task ready,
the first successful claim returns the High-priority task. -/
theorem claimNextReady_priority_order :
    (∀ (s : Store) (w : Nat) (types : Option (List String)) (now : Nat)
        (t' : Task) (s' : Store),
      claimNextReady s w types now = (some t', s') →
      ∃ t ∈ s.tasks, isReady t now types = true ∧
        t' = { t with status := .claimed, claimedBy := some w,
                      claimedAt := some now } ∧
        ∀ u ∈ s.tasks, isReady u now types = true →
          u.priority.rank ≤ t.priority.rank ∧
          (u.priority.rank = t.priority.rank → readyAt t ≤ readyAt u)) ∧
    (((claimNextReady storeB2 7 none 5).1).map (fun t => (t.id, t.priority)) =
      some (0, Priority.high)) := by
  constructor
  · intro s w types now t' s' h
    unfold claimNextReady at h
    cases hp : pickBest (s.tasks.filter fun t => isReady t now types) with
    | none =>
      rw [hp] at h
      dsimp only at h
      exact absurd (congrArg Prod.fst h) (by simp)
    | some t =>
      rw [hp] at h
      dsimp only at h
      have hmem := pickBest_mem hp
      have htm : t ∈ s.tasks := (List.mem_filter.1 hmem).1
      have hready : isReady t now types = true := (List.mem_filter.1 hmem).2
      have hbest := pickBest_not_better hp
      cases h
      refine ⟨t, htm, hready, rfl, ?_⟩
      intro u hu hru
      have hub : ¬ better u t := hbest u (List.mem_filter.2 ⟨hu, hru⟩)
      unfold better at hub
      omega
  · rfl

/-- Witness for C5, applied to the Scenario B claim. -/
theorem claimNextReady_priority_order_witness :
    (∃ t ∈ storeB2.tasks, isReady t 5 none = true ∧
      (claimNextReady storeB2 7 none 5).1.getD defaultTask =
        { t with status := .claimed, claimedBy := some 7, claimedAt := some 5 } ∧
      ∀ u ∈ storeB2.tasks, isReady u 5 none = true →
        u.priority.rank ≤ t.priority.rank ∧
        (u.priority.rank = t.priority.rank → readyAt t ≤ readyAt u)) ∧
    (((claimNextReady storeB2 7 none 5).1).map (fun t => (t.id, t.priority)) =
      some (0, Priority.high)) := by
  refine ⟨?_, claimNextReady_priority_order.2⟩
  obtain ⟨t, htm, hready, heq, hall⟩ :=
    claimNextReady_priority_order.1 storeB2 7 none 5
      ((claimNextReady storeB2 7 none 5).1.getD defaultTask)
      (claimNextReady storeB2 7 none 5).2 (by rfl)
  exact ⟨t, htm, hready, heq, hall⟩

/-- C7: Enqueue validation atomicity — an enqueue fails with ValidationError
exactly when the type is unregistered or the payload oversized, and a rejected
enqueue leaves the Task Store unchanged. -/
theorem enqueue_validation :
    ∀ (s : Store) (ty p : String) (pr : Priority) (ma : Nat) (sf : Option Nat)
      (ik : Option String) (now : Nat),
      ((createTask s ty p pr ma sf ik now).1 = .error .validationError ↔
        (ty ∉ s.cfg.registered ∨ s.cfg.maxPayloadSize < p.length)) ∧
      ((createTask s ty p pr ma sf ik now).1 = .error .validationError →
        (createTask s ty p pr ma sf ik now).2 = s) := by
  intro s ty p pr ma sf ik now
  unfold createTask
  by_cases hr : ty ∉ s.cfg.registered
  · rw [if_pos hr]
    exact ⟨by simp [hr], fun _ => rfl⟩
  · rw [if_neg hr]
    by_cases hsz : p.length > s.cfg.maxPayloadSize
    · rw [if_pos hsz]
      exact ⟨by simp [hsz], fun _ => rfl⟩
    · rw [if_neg hsz]
      constructor
      · constructor
        · intro he
          exfalso
          revert he
          cases ik with
          | none => simp
          | some k =>
            cases hf : findNonTerminalByKey s.tasks k with
            | some t => simp [hf]
            | none => simp [hf]
        · intro hor
          rcases hor with hor | hor
          · exact absurd hor hr
          · exact absurd hor hsz
      · intro he
        exfalso
        revert he
        cases ik with
        | none => simp
        | some k =>
          cases hf : findNonTerminalByKey s.tasks k with
          | some t => simp [hf]
          | none => simp [hf]

/-- Witness for C7: enqueueing an unregistered type against the Scenario A
configuration is rejected and persists nothing. -/
theorem enqueue_validation_witness :
    ((createTask storeK1 "unknown_type" "p" .normal 3 none none 7).1 =
      .error .validationError) ∧
    ((createTask storeK1 "unknown_type" "p" .normal 3 none none 7).2 = storeK1) :=
  ⟨(enqueue_validation storeK1 "unknown_type" "p" .normal 3 none none 7).1.2
      (by decide),
   (enqueue_validation storeK1 "unknown_type" "p" .normal 3 none none 7).2
      ((enqueue_validation storeK1 "unknown_type" "p" .normal 3 none none 7).1.2
        (by decide))⟩

/-- C6: Backoff law — for every attempt `n ≥ 1` the retry delay equals
`min(maxDelay, baseDelay * 2^(n-1))` plus the jitter drawn from
`[0, delay*varianceFactor)`, the jittered delay stays within
`[delay, delay*(1+varianceFactor))`, and the delay is non-decreasing in `n`,
both in its deterministic part and in expectation across the jitter
distribution. -/
theorem backoff_law (c : BackoffParams) (n : Nat) (j : ℚ)
    (hbase : 0 ≤ c.baseDelay) (hvf : 0 ≤ c.varianceFactor) (hn : 1 ≤ n)
    (hj : validJitter c n j) :
    delayWithJitter c n j = min c.maxDelay (c.baseDelay * 2 ^ (n - 1)) + j ∧
    backoffBase c n ≤ delayWithJitter c n j ∧
    delayWithJitter c n j < backoffBase c n * (1 + c.varianceFactor) ∧
    backoffBase c n ≤ backoffBase c (n + 1) ∧
    expectedDelay c n ≤ expectedDelay c (n + 1) := by
  obtain ⟨hj0, hjlt⟩ := hj
  have hmono : backoffBase c n ≤ backoffBase c (n + 1) := by
    unfold backoffBase
    apply min_le_min le_rfl
    apply mul_le_mul_of_nonneg_left _ hbase
    apply pow_le_pow_right₀ (by norm_num)
    omega
  refine ⟨rfl, ?_, ?_, hmono, ?_⟩
  · unfold delayWithJitter
    linarith
  · unfold delayWithJitter
    have hdist : backoffBase c n * (1 + c.varianceFactor) =
        backoffBase c n + backoffBase c n * c.varianceFactor := by ring
    linarith
  · unfold expectedDelay
    apply mul_le_mul_of_nonneg_right hmono
    linarith

/-- Witness for C6: base 2, cap 8, variance 1/10, attempt 2, jitter 1/5. -/
theorem backoff_law_witness :
    delayWithJitter ⟨2, 8, 1/10⟩ 2 (1/5) =
        min (8 : ℚ) (2 * 2 ^ (2 - 1)) + 1/5 ∧
    backoffBase ⟨2, 8, 1/10⟩ 2 ≤ delayWithJitter ⟨2, 8, 1/10⟩ 2 (1/5) ∧
    delayWithJitter ⟨2, 8, 1/10⟩ 2 (1/5) <
        backoffBase ⟨2, 8, 1/10⟩ 2 * (1 + (1/10 : ℚ)) ∧
    backoffBase ⟨2, 8, 1/10⟩ 2 ≤ backoffBase ⟨2, 8, 1/10⟩ 3 ∧
    expectedDelay ⟨2, 8, 1/10⟩ 2 ≤ expectedDelay ⟨2, 8, 1/10⟩ 3 :=
  backoff_law ⟨2, 8, 1/10⟩ 2 (1/5) (by norm_num) (by norm_num) (by norm_num)
    ⟨by norm_num, by norm_num [backoffBase]⟩

/-- C8: Health score range and classification — for every configuration and
input the health score lies in [0,1], and the classification lands in exactly
one of healthy/degraded/unhealthy according to the configured thresholds. -/
theorem health_score_range (c : HealthConfig) (i : HealthInputs) :
    0 ≤ healthScore c i ∧ healthScore c i ≤ 1 ∧
    (classifyHealth c i = .healthy ∨ classifyHealth c i = .degraded ∨
      classifyHealth c i = .unhealthy) ∧
    (classifyHealth c i = .healthy ↔ c.healthyThreshold ≤ healthScore c i) ∧
    (classifyHealth c i = .degraded ↔
      (¬ c.healthyThreshold ≤ healthScore c i ∧
        c.degradedThreshold ≤ healthScore c i)) ∧
    (classifyHealth c i = .unhealthy ↔
      (¬ c.healthyThreshold ≤ healthScore c i ∧
        ¬ c.degradedThreshold ≤ healthScore c i)) := by
  have hcl : ∀ x : ℚ, 0 ≤ clamp01 x ∧ clamp01 x ≤ 1 := by
    intro x
    unfold clamp01
    exact ⟨le_min (by norm_num) (le_max_left 0 x), min_le_left 1 _⟩
  have hy := hcl (c.wFailure * clamp01 i.failureRate +
      c.wQueue * clamp01 (i.queueDepth / max 1 i.throughput) +
      c.wLatency * clamp01 (i.latency / max 1 c.latencyNorm))
  have h0 : 0 ≤ healthScore c i := by
    unfold healthScore
    linarith [hy.2]
  have h1 : healthScore c i ≤ 1 := by
    unfold healthScore
    linarith [hy.1]
  unfold classifyHealth
  split_ifs with hh hd
  · exact ⟨h0, h1, Or.inl rfl, by simp [hh], by simp [hh], by simp [hh]⟩
  · exact ⟨h0, h1, Or.inr (Or.inl rfl), by simp [hh], by simp [hh, hd], by simp [hd]⟩
  · exact ⟨h0, h1, Or.inr (Or.inr rfl), by simp [hh], by simp [hd], by simp [hh, hd]⟩

/-- Witness for C8 at a concrete configuration and the Scenario A final
store's derived inputs. -/
theorem health_score_range_witness :
    0 ≤ healthScore ⟨1/2, 1/4, 1/4, 1000, 4/5, 1/2⟩ (healthInputsOf storeF3) ∧
    healthScore ⟨1/2, 1/4, 1/4, 1000, 4/5, 1/2⟩ (healthInputsOf storeF3) ≤ 1 :=
  ⟨(health_score_range ⟨1/2, 1/4, 1/4, 1000, 4/5, 1/2⟩ (healthInputsOf storeF3)).1,
   (health_score_range ⟨1/2, 1/4, 1/4, 1000, 4/5, 1/2⟩ (healthInputsOf storeF3)).2.1⟩

/-- C9: Metrics frame property — `get_queue_stats`, `get_health` and the
aggregate queries return their observation and leave every task record and
every scheduled-job definition in the Task Store unchanged. -/
theorem metrics_frame (s : Store) (c : HealthConfig) (p : Task → Bool) (id : Nat) :
    (getQueueStatsOp s).2 = s ∧
    (getHealthOp c s).2 = s ∧
    (listTasksOp s p).2 = s ∧
    (getTaskOp s id).2 = s ∧
    (getQueueStatsOp s).2.tasks = s.tasks ∧
    (getQueueStatsOp s).2.schedules = s.schedules :=
  ⟨rfl, rfl, rfl, rfl, rfl, rfl⟩

end TaskQueue

namespace Dashboard

theorem onClose_invariant (o : WSOptions) (st : HookState)
    (h : st.reconnectAttempts ≤ o.maxReconnectAttempts ∧
        st.scheduledDelays.length = st.reconnectAttempts ∧
        st.isManualClose = false) :
    (onClose o st).reconnectAttempts ≤ o.maxReconnectAttempts ∧
    (onClose o st).scheduledDelays.length = (onClose o st).reconnectAttempts ∧
    (onClose o st).isManualClose = false := by
  obtain ⟨h1, h2, h3⟩ := h
  unfold onClose
  by_cases hc : st.isManualClose = false ∧
      st.reconnectAttempts < o.maxReconnectAttempts
  · rw [if_pos hc]
    refine ⟨?_, ?_, h3⟩
    · show st.reconnectAttempts + 1 ≤ o.maxReconnectAttempts
      omega
    · simp [h2]
  · rw [if_neg hc]
    exact ⟨h1, h2, h3⟩

theorem iterClose_invariant (o : WSOptions) (n : Nat) :
    ∀ st : HookState,
      st.reconnectAttempts ≤ o.maxReconnectAttempts ∧
        st.scheduledDelays.length = st.reconnectAttempts ∧
        st.isManualClose = false →
      (iterClose o n st).reconnectAttempts ≤ o.maxReconnectAttempts ∧
        (iterClose o n st).scheduledDelays.length =
          (iterClose o n st).reconnectAttempts ∧
        (iterClose o n st).isManualClose = false := by
  induction n with
  | zero => exact fun st h => h
  | succ n ih => exact fun st h => ih (onClose o st) (onClose_invariant o st h)

theorem onClose_manual (o : WSOptions) (st : HookState)
    (h : st.isManualClose = true) :
    (onClose o st).scheduledDelays = st.scheduledDelays ∧
    (onClose o st).reconnectTimer = st.reconnectTimer ∧
    (onClose o st).isManualClose = true := by
  unfold onClose
  rw [if_neg (by simp [h])]
  exact ⟨rfl, rfl, h⟩

theorem iterClose_disconnect (o : WSOptions) (k : Nat) :
    ∀ st : HookState, st.isManualClose = true ∧ st.reconnectTimer = none →
      (iterClose o k st).scheduledDelays = st.scheduledDelays ∧
      (iterClose o k st).reconnectTimer = none ∧
      (iterClose o k st).isManualClose = true := by
  induction k with
  | zero => exact fun st h => ⟨rfl, h.2, h.1⟩
  | succ k ih =>
    intro st h
    obtain ⟨hm', ht', _⟩ := onClose_manual o st h.1
    obtain ⟨hd, ht, hm⟩ := ih (onClose o st) ⟨(onClose_manual o st h.1).2.2,
      by rw [ht']; exact h.2⟩
    exact ⟨hd.trans hm', ht, hm⟩

/-- C10: Dashboard WebSocket reconnection is bounded and suppressible — a run
of consecutive close events from mount schedules at most
`maxReconnectAttempts` (default 5) reconnects, each after
`reconnectInterval * 1.5^(attempts-1)`; a close arriving once the cap is
reached leaves the hook Disconnected with error "Max reconnection attempts
reached"; and after `disconnect()` no close event ever schedules a
reconnect again. -/
theorem websocket_reconnection_bounded (o : WSOptions) (st : HookState) (n k : Nat) :
    (iterClose o n initHookState).scheduledDelays.length ≤ o.maxReconnectAttempts ∧
    (defaultOptions.maxReconnectAttempts = 5 ∧
      defaultOptions.reconnectInterval = 3000) ∧
    (st.isManualClose = false → st.reconnectAttempts < o.maxReconnectAttempts →
      (onClose o st).reconnectTimer =
        some (o.reconnectInterval * (3 / 2 : ℚ) ^ st.reconnectAttempts) ∧
      (onClose o st).reconnectAttempts = st.reconnectAttempts + 1 ∧
      (onClose o st).connectionStatus = .reconnecting) ∧
    (o.maxReconnectAttempts ≤ st.reconnectAttempts →
      (onClose o st).connectionStatus = .disconnected ∧
      (onClose o st).error = some "Max reconnection attempts reached" ∧
      (onClose o st).reconnectTimer = st.reconnectTimer) ∧
    ((iterClose o k (disconnect st)).scheduledDelays = st.scheduledDelays ∧
      (iterClose o k (disconnect st)).reconnectTimer = none ∧
      (iterClose o k (disconnect st)).isManualClose = true) := by
  refine ⟨?_, ⟨rfl, rfl⟩, ?_, ?_, ?_⟩
  · obtain ⟨ha, hl, _⟩ :=
      iterClose_invariant o n initHookState ⟨Nat.zero_le _, rfl, rfl⟩
    omega
  · intro hm hlt
    unfold onClose
    rw [if_pos ⟨hm, hlt⟩]
    exact ⟨rfl, rfl, rfl⟩
  · intro hge
    unfold onClose
    rw [if_neg (fun hc => absurd hc.2 (by omega))]
    refine ⟨rfl, ?_, rfl⟩
    show (if o.maxReconnectAttempts ≤ st.reconnectAttempts then
        some "Max reconnection attempts reached" else st.error) =
      some "Max reconnection attempts reached"
    rw [if_pos hge]
  · exact iterClose_disconnect o k (disconnect st) ⟨rfl, rfl⟩

/-- Witness for C10 with the default options: nine straight closes schedule at
most five reconnects, the first reconnect is scheduled after 3000ms, a close
at the cap reports the terminal error, and closes after `disconnect()` leave
the timer clear. -/
theorem websocket_reconnection_bounded_witness :
    (iterClose defaultOptions 9 initHookState).scheduledDelays.length ≤ 5 ∧
    (onClose defaultOptions initHookState).reconnectTimer = some 3000 ∧
    (onClose defaultOptions
      (iterClose defaultOptions 5 initHookState)).connectionStatus =
        .disconnected ∧
    (onClose defaultOptions (iterClose defaultOptions 5 initHookState)).error =
      some "Max reconnection attempts reached" ∧
    (iterClose defaultOptions 4 (disconnect initHookState)).reconnectTimer =
      none := by
  have h := websocket_reconnection_bounded defaultOptions initHookState 9 4
  have h5 := websocket_reconnection_bounded defaultOptions
    (iterClose defaultOptions 5 initHookState) 0 0
  refine ⟨h.1, ?_, ?_, ?_, ?_⟩
  · have ht := (h.2.2.1 rfl (by decide)).1
    rw [ht]
    norm_num [defaultOptions, initHookState]
  · exact (h5.2.2.2.1 (by decide)).1
  · exact (h5.2.2.2.1 (by decide)).2.1
  · exact h.2.2.2.2.2.1

end Dashboard
